import Mathlib

/-!
Verification of the `arcpy_auth_manager` credential vault
(`src/arcpy_auth_manager/manager.py`) against its specification.

Python strings are modelled as lists of natural-number code points
(`List Nat`); Python bytes objects are modelled the same way, since
`str.encode("ascii")` and `bytes.decode("utf-8")` are the identity on the
code points whenever every code point is below 128, and raise otherwise.

The external collaborators are modelled at their boundary:
  * the keyring Secret Backend is an association list from account name to
    the stored string (the service name is the fixed constant
    `DEFAULT_SERVICE_NAME`, so it is not part of the key);
  * the Fernet cipher (the `cryptography` package, not part of this
    repository) is modelled from the spec, section 4.3: randomized
    authenticated encryption whose decrypt succeeds exactly on well-formed
    tokens produced under the same key, and fails on any tampered token.
-/

namespace ArcpyAuthManager

/-- A Python value as produced by `json.load` and held in `self.json_data`:
a string, an object (insertion-ordered association list, as a Python dict),
or an array. -/
inductive PyVal where
| str (s : List Nat)
| dict (entries : List (List Nat × PyVal))
| list (xs : List PyVal)

/-- The failure modes of the manager, named after the taxonomy of the spec,
section 7.  Each constructor corresponds to one concrete Python exception:
  * `credentialNotFound` — `AttributeError` from `None.encode` when
    `keyring.get_password` returns `None` (manager.py line 136);
  * `unknownIdentity`    — `KeyError` from `self.json_data[username]`
    (line 104);
  * `decryptionFailed`   — `cryptography.fernet.InvalidToken` (line 138);
  * `unicodeEncodeError` — `UnicodeEncodeError` from `.encode("ascii")`
    (lines 132 and 136);
  * `typeError`          — `TypeError` from indexing a non-dict value with
    a string key (line 127);
  * `attributeError`     — `AttributeError` from `.encode` on a registry
    value that is not a string (line 104). -/
inductive Err where
| credentialNotFound
| unknownIdentity
| decryptionFailed
| unicodeEncodeError
| typeError
| attributeError
deriving DecidableEq

/-- Contents of the persisted registry file `auth_data.json`: missing,
present but not valid JSON, or valid JSON parsing to a `PyVal`. -/
inductive FileContent where
| absent
| unparseable
| parsed (v : PyVal)

/-- Observable side effects of an operation, in program order:
a write of the registry file (`_write_json_storage`, line 128) and a write
to the Secret Backend (`keyring.set_password`, line 133). -/
inductive Ev where
| regWrite (content : PyVal)
| backendSet (account : List Nat) (value : List Nat)

/-- The whole state a `TokenManager` can read or write:
  * `json_data`    — the in-memory registry (`self.json_data`);
  * `json_storage` — the persisted registry file (`self.json_storage`);
  * `backend`      — the keyring store, account name to stored string;
  * `fresh`        — an entropy counter standing for the cryptographically
    random source consumed by `Fernet.generate_key`. -/
structure St where
  json_data : PyVal
  json_storage : FileContent
  backend : List (List Nat × List Nat)
  fresh : Nat

/-- Result of one manager operation: the returned value or the raised
exception, the state after the operation (also when it raises), and the
write events it performed, in order. -/
structure OpResult (α : Type) where
  result : Except Err α
  state : St
  events : List Ev

/-- `str.encode("ascii")` / `bytes.decode("utf-8")` on ASCII data:
the identity when every code point is below 128, otherwise a
`UnicodeEncodeError`. -/
def asciiEncode (s : List Nat) : Except Err (List Nat) :=
  if s.all (fun c => c < 128) then .ok s else .error .unicodeEncodeError

/-- Lookup in an insertion-ordered association list (Python dict read). -/
def alGet {β : Type} : List (List Nat × β) → List Nat → Option β
| [], _ => none
| (k0, v0) :: rest, k => if k0 = k then some v0 else alGet rest k

/-- Update in an insertion-ordered association list (Python dict write):
an existing key is overwritten in place, a new key is appended. -/
def alSet {β : Type} : List (List Nat × β) → List Nat → β → List (List Nat × β)
| [], k, v => [(k, v)]
| (k0, v0) :: rest, k, v =>
  if k0 = k then (k0, v) :: rest else (k0, v0) :: alSet rest k v

/-- Python subscript read `v[key]` with a string key: association lookup on
a dict (`KeyError` when absent), `TypeError` on a list or a string. -/
def pyGetItem (v : PyVal) (key : List Nat) : Except Err PyVal :=
  match v with
  | .dict es =>
    match alGet es key with
    | some x => .ok x
    | none => .error .unknownIdentity
  | _ => .error .typeError

/-- Python subscript write `v[key] = x` with a string key: association
update on a dict, `TypeError` on a list or a string. -/
def pySetItem (v : PyVal) (key : List Nat) (val : PyVal) : Except Err PyVal :=
  match v with
  | .dict es => .ok (.dict (alSet es key val))
  | _ => .error .typeError

/-! ### The cipher, modelled from the spec

`Fernet` comes from the external `cryptography` package, so its behaviour
is modelled from the spec, section 4.3: encryption is randomized by a
nonce, the token is printable ASCII, and decryption authenticates the
token, succeeding exactly on untampered tokens made with the same key.
The integrity tag is idealized as a full redundant copy of the body, so
that any single corrupted character is detected. -/

/-- Self-delimiting injective encoding of a natural number into code
points: `n` repetitions of `49` closed by a `44` terminator. -/
def encNat (n : Nat) : List Nat := List.replicate n 49 ++ [44]

/-- Decoder for `encNat`, returning the value and the unread remainder. -/
def decNat : List Nat → Option (Nat × List Nat)
| [] => none
| c :: rest =>
  if c = 44 then some (0, rest)
  else if c = 49 then (decNat rest).map (fun p => (p.1 + 1, p.2))
  else none

/-- Concatenated encodings of the elements of a list. -/
def encItems : List Nat → List Nat
| [] => []
| x :: xs => encNat x ++ encItems xs

/-- Reads `n` consecutive `encNat` encodings. -/
def decItems : Nat → List Nat → Option (List Nat × List Nat)
| 0, rest => some ([], rest)
| n + 1, bs =>
  match decNat bs with
  | some (x, r) => (decItems n r).map (fun p => (x :: p.1, p.2))
  | none => none

/-- Self-delimiting injective encoding of a byte list: its length followed
by the encodings of its elements. -/
def encList (xs : List Nat) : List Nat := encNat xs.length ++ encItems xs

/-- Decoder for `encList`. -/
def decList (bs : List Nat) : Option (List Nat × List Nat) :=
  match decNat bs with
  | some (len, r) => decItems len r
  | none => none

/-- Modelled from the spec: `cryptography.fernet.Fernet.generate_key`
(section 4.3 `generate_key`), drawing the `fresh`-th key from the
cryptographically random source.  The key bytes are printable ASCII,
as real Fernet keys are urlsafe base64. -/
def genKey (fresh : Nat) : List Nat := encNat fresh

/-- Modelled from the spec: `Fernet.encrypt` (section 4.3 `encrypt`) —
a token binding the key, a fresh nonce and the plaintext, in printable
ASCII, carrying an integrity tag.  The tag is idealized as a redundant
copy of the encoded body, so any single-character corruption is
detectable. -/
def fernetEncrypt (key : List Nat) (nonce : Nat) (pt : List Nat) : List Nat :=
  let body := encList key ++ encNat nonce ++ encList pt
  body ++ body

/-- Modelled from the spec: `Fernet.decrypt` (section 4.3 `decrypt`) —
verifies the integrity tag and the key and recovers the plaintext,
failing with `InvalidToken` (spec: `DecryptionFailed`) on any tampered or
foreign-key token; it never returns incomplete plaintext. -/
def fernetDecrypt (key : List Nat) (ct : List Nat) : Except Err (List Nat) :=
  let n := ct.length / 2
  if ct.length % 2 = 0 then
    if ct.take n = ct.drop n then
      match decList (ct.take n) with
      | some (k, r1) =>
        match decNat r1 with
        | some (_, r2) =>
          match decList r2 with
          | some (p, r3) =>
            if r3 = [] then
              if k = key then .ok p else .error .decryptionFailed
            else .error .decryptionFailed
          | none => .error .decryptionFailed
        | none => .error .decryptionFailed
      | none => .error .decryptionFailed
    else .error .decryptionFailed
  else .error .decryptionFailed

/-! ### The Token Manager, translated from `manager.py` -/

/-- `TokenManager._get_json_storage` (manager.py lines 84-97): the parsed
file contents; an absent file or a `json.decoder.JSONDecodeError` yields
an empty dictionary. -/
def getJsonStorage (file : FileContent) : PyVal :=
  match file with
  | .parsed v => v
  | .unparseable => .dict []
  | .absent => .dict []

/-- `TokenManager.__init__` (lines 73-82) after the platform gate: the
storage folder exists, `self.json_storage` names the registry file and
`self.json_data` is loaded from it.  The pre-existing file contents,
backend contents and entropy source are parameters of the model. -/
def mkManager (file : FileContent) (backend : List (List Nat × List Nat))
    (fresh : Nat) : St :=
  { json_data := getJsonStorage file, json_storage := file,
    backend := backend, fresh := fresh }

/-- `TokenManager._get_key` (lines 103-105):
`self.json_data[username].encode("ascii")`. -/
def getKeyOp (json_data : PyVal) (username : List Nat) : Except Err (List Nat) :=
  match pyGetItem json_data username with
  | .ok (.str s) => asciiEncode s
  | .ok _ => .error .attributeError
  | .error e => .error e

/-- `TokenManager.store` (lines 107-133), statement by statement:
generate a fresh key (line 125); write it into the in-memory registry
under `username` (line 127, can raise `TypeError` on a non-dict registry);
persist the registry file (line 128); ASCII-encode the token and encrypt
it (line 132, the encode can raise `UnicodeEncodeError` before any
backend write); store the ciphertext in the keyring (line 133). -/
def store (s : St) (username : List Nat) (token : List Nat) : OpResult Unit :=
  let crypt_key := genKey s.fresh
  let s1 : St := { s with fresh := s.fresh + 1 }
  match pySetItem s1.json_data username (.str crypt_key) with
  | .error e => { result := .error e, state := s1, events := [] }
  | .ok jd =>
    let s2 : St := { s1 with json_data := jd, json_storage := .parsed jd }
    match asciiEncode token with
    | .error e => { result := .error e, state := s2, events := [Ev.regWrite jd] }
    | .ok pt =>
      let ct := fernetEncrypt crypt_key s.fresh pt
      { result := .ok (),
        state := { s2 with backend := alSet s2.backend username ct },
        events := [Ev.regWrite jd, Ev.backendSet username ct] }

/-- `TokenManager.retrieve_current_token` (lines 135-139):
read the stored string from the keyring and ASCII-encode it (line 136, a
missing entry raises `AttributeError` on `None`, the spec name
`CredentialNotFound`); read the key from the registry (line 137 via
`_get_key`); decrypt (line 138).  The plaintext bytes are returned. -/
def retrieve (s : St) (username : List Nat) : OpResult (List Nat) :=
  match alGet s.backend username with
  | none => { result := .error .credentialNotFound, state := s, events := [] }
  | some stored =>
    match asciiEncode stored with
    | .error e => { result := .error e, state := s, events := [] }
    | .ok encrypted_token =>
      match getKeyOp s.json_data username with
      | .error e => { result := .error e, state := s, events := [] }
      | .ok key =>
        { result := fernetDecrypt key encrypted_token, state := s, events := [] }

/-- Flip bit `j` of the character at position `i` of a stored string
(tampering with one bit of a stored ciphertext). -/
def flipAt (bs : List Nat) (i j : Nat) : List Nat :=
  bs.set i ((bs.getD i 0) ^^^ 2 ^ j)

/-- The in-memory registry agrees with what parsing the persisted registry
file yields. -/
def registryConsistent (s : St) : Prop :=
  s.json_data = getJsonStorage s.json_storage

/-! ### Codec lemmas -/

theorem decNat_encNat (n : Nat) (rest : List Nat) :
    decNat (encNat n ++ rest) = some (n, rest) := by
  induction n with
  | zero => simp [encNat, decNat]
  | succ n ih =>
    have h : encNat (n + 1) ++ rest = 49 :: (encNat n ++ rest) := by
      simp [encNat, List.replicate_succ]
    rw [h]
    simp [decNat, ih]

theorem encNat_injective {m n : Nat} (h : encNat m = encNat n) : m = n := by
  have hm := decNat_encNat m ([] : List Nat)
  rw [h, decNat_encNat n ([] : List Nat)] at hm
  injection hm with h2
  injection h2 with h3 _
  exact h3.symm

theorem decItems_encItems (xs : List Nat) (rest : List Nat) :
    decItems xs.length (encItems xs ++ rest) = some (xs, rest) := by
  induction xs generalizing rest with
  | nil => simp [encItems, decItems]
  | cons x xs ih =>
    simp only [encItems, List.length_cons, decItems, List.append_assoc,
      decNat_encNat, ih]
    rfl

theorem decList_encList (xs : List Nat) (rest : List Nat) :
    decList (encList xs ++ rest) = some (xs, rest) := by
  simp [decList, encList, List.append_assoc, decNat_encNat, decItems_encItems]

theorem encNat_mem_lt {c n : Nat} (h : c ∈ encNat n) : c < 128 := by
  simp only [encNat, List.mem_append, List.mem_replicate, List.mem_singleton] at h
  rcases h with h | h
  · omega
  · omega

theorem encItems_mem_lt {c : Nat} {xs : List Nat} (h : c ∈ encItems xs) : c < 128 := by
  induction xs with
  | nil => simp [encItems] at h
  | cons x xs ih =>
    simp only [encItems, List.mem_append] at h
    rcases h with h | h
    · exact encNat_mem_lt h
    · exact ih h

theorem encList_mem_lt {c : Nat} {xs : List Nat} (h : c ∈ encList xs) : c < 128 := by
  rw [encList] at h
  rcases List.mem_append.mp h with h | h
  · exact encNat_mem_lt h
  · exact encItems_mem_lt h

theorem encBody_mem_lt {c : Nat} {key : List Nat} {nonce : Nat} {pt : List Nat}
    (h : c ∈ encList key ++ encNat nonce ++ encList pt) : c < 128 := by
  rcases List.mem_append.mp h with h1 | h1
  · rcases List.mem_append.mp h1 with h2 | h2
    · exact encList_mem_lt h2
    · exact encNat_mem_lt h2
  · exact encList_mem_lt h1

theorem fernetEncrypt_mem_lt {c : Nat} {key : List Nat} {nonce : Nat}
    {pt : List Nat} (h : c ∈ fernetEncrypt key nonce pt) : c < 128 := by
  have hct : fernetEncrypt key nonce pt =
      (encList key ++ encNat nonce ++ encList pt) ++
        (encList key ++ encNat nonce ++ encList pt) := rfl
  rw [hct] at h
  rcases List.mem_append.mp h with h1 | h1 <;> exact encBody_mem_lt h1

theorem fernetEncrypt_ascii (key : List Nat) (nonce : Nat) (pt : List Nat) :
    asciiEncode (fernetEncrypt key nonce pt) = .ok (fernetEncrypt key nonce pt) := by
  have h : (fernetEncrypt key nonce pt).all (fun c => c < 128) = true := by
    rw [List.all_eq_true]
    intro c hc
    simpa using fernetEncrypt_mem_lt hc
  simp [asciiEncode, h]

theorem genKey_ascii (fresh : Nat) :
    asciiEncode (genKey fresh) = .ok (genKey fresh) := by
  have h : (genKey fresh).all (fun c => c < 128) = true := by
    rw [List.all_eq_true]
    intro c hc
    simpa using encNat_mem_lt hc
  simp [asciiEncode, h]

/-- Decrypting with the key a token was encrypted under recovers the
plaintext; decrypting with any other key fails with `DecryptionFailed`. -/
theorem fernetDecrypt_fernetEncrypt (key key2 : List Nat) (nonce : Nat)
    (pt : List Nat) :
    fernetDecrypt key2 (fernetEncrypt key nonce pt) =
      if key = key2 then .ok pt else .error .decryptionFailed := by
  have hct : fernetEncrypt key nonce pt =
      (encList key ++ encNat nonce ++ encList pt) ++
        (encList key ++ encNat nonce ++ encList pt) := rfl
  rw [hct]
  generalize hb : encList key ++ encNat nonce ++ encList pt = body
  have hlen : (body ++ body).length = body.length + body.length :=
    List.length_append body body
  have hmod : (body ++ body).length % 2 = 0 := by omega
  have hdiv : (body ++ body).length / 2 = body.length := by omega
  have hdec1 : decList body = some (key, encNat nonce ++ encList pt) := by
    rw [← hb, List.append_assoc]
    exact decList_encList key (encNat nonce ++ encList pt)
  have hdec2 : decList (encList pt) = some (pt, []) := by
    have h3 := decList_encList pt ([] : List Nat)
    simpa using h3
  simp only [fernetDecrypt, hmod, if_true, hdiv, List.take_left, List.drop_left,
    hdec1, decNat_encNat, hdec2]

/-! ### Association-list and bit-flip lemmas -/

theorem alGet_alSet_self {β : Type} (es : List (List Nat × β)) (k : List Nat)
    (v : β) : alGet (alSet es k v) k = some v := by
  induction es with
  | nil => simp [alSet, alGet]
  | cons e rest ih =>
    obtain ⟨k0, v0⟩ := e
    by_cases h : k0 = k
    · simp [alSet, alGet, h]
    · simp [alSet, alGet, h, ih]

theorem xor_two_pow_ne (c j : Nat) : c ^^^ 2 ^ j ≠ c := by
  intro h
  have h2 : c ^^^ (c ^^^ 2 ^ j) = c ^^^ c := by rw [h]
  rw [Nat.xor_cancel_left, Nat.xor_self] at h2
  have h3 := Nat.two_pow_pos j
  omega

theorem xor_two_pow_lt {c j : Nat} (hc : c < 128) (hj : j < 7) :
    c ^^^ 2 ^ j < 128 := by
  have h1 : (2:Nat) ^ j < 2 ^ 7 := Nat.pow_lt_pow_right (by omega) hj
  have h2 := Nat.xor_lt_two_pow (n := 7) (x := c) (y := 2 ^ j) (by omega) (by omega)
  omega

theorem xor_two_pow_ge {c j : Nat} (hc : c < 128) (hj : 7 ≤ j) :
    ¬ c ^^^ 2 ^ j < 128 := by
  intro h
  have h27 : (128:Nat) ≤ 2 ^ j := by
    calc (128:Nat) = 2 ^ 7 := rfl
    _ ≤ 2 ^ j := Nat.pow_le_pow_right (by omega) hj
  have hc2 : c < 2 ^ j := by omega
  have hx : c ^^^ 2 ^ j < 2 ^ j := by omega
  have h3 := Nat.xor_lt_two_pow hc2 hx
  rw [Nat.xor_cancel_left] at h3
  omega

theorem ne_of_getElem_ne {α : Type} {a b : List α} (i : Nat) (ha : i < a.length)
    (hb : i < b.length) (h : a.get ⟨i, ha⟩ ≠ b.get ⟨i, hb⟩) : a ≠ b := by
  intro he
  subst he
  exact h rfl

/-- Flipping any bit of any character of a Fernet token makes its two
redundant halves disagree, so decryption rejects it with
`DecryptionFailed`, whatever key is supplied. -/
theorem fernetDecrypt_flipAt (key key2 : List Nat) (nonce : Nat)
    (pt : List Nat) (i j : Nat)
    (hi : i < (fernetEncrypt key nonce pt).length) :
    fernetDecrypt key2 (flipAt (fernetEncrypt key nonce pt) i j) =
      .error .decryptionFailed := by
  have hct : fernetEncrypt key nonce pt =
      (encList key ++ encNat nonce ++ encList pt) ++
        (encList key ++ encNat nonce ++ encList pt) := rfl
  rw [hct] at hi ⊢
  generalize hb : encList key ++ encNat nonce ++ encList pt = body at hi ⊢
  have hlen : (body ++ body).length = body.length + body.length :=
    List.length_append body body
  rw [hlen] at hi
  have hgetlt : i < (body ++ body).length := by omega
  have hvdef : flipAt (body ++ body) i j =
      (body ++ body).set i ((body ++ body).get ⟨i, hgetlt⟩ ^^^ 2 ^ j) := by
    rw [flipAt, List.getD_eq_getElem _ _ hgetlt]
    rfl
  rcases Nat.lt_or_ge i body.length with hcase | hcase
  · -- the flip lands in the first half
    have horig : (body ++ body).get ⟨i, hgetlt⟩ = body.get ⟨i, hcase⟩ :=
      List.getElem_append_left hcase
    rw [hvdef, horig, List.set_append_left _ _ hcase]
    generalize hv : body.get ⟨i, hcase⟩ ^^^ 2 ^ j = v
    have hvne : v ≠ body.get ⟨i, hcase⟩ := by
      rw [← hv]; exact xor_two_pow_ne _ j
    have hlenset : (body.set i v).length = body.length := List.length_set body i v
    have hlen2 : (body.set i v ++ body).length = body.length + body.length := by
      rw [List.length_append, hlenset]
    have hmod : (body.set i v ++ body).length % 2 = 0 := by omega
    have hdiv : (body.set i v ++ body).length / 2 = body.length := by omega
    have htake : (body.set i v ++ body).take body.length = body.set i v := by
      rw [← hlenset]
      exact List.take_left _ _
    have hdrop : (body.set i v ++ body).drop body.length = body := by
      rw [← hlenset]
      exact List.drop_left _ _
    have hne : body.set i v ≠ body := by
      refine ne_of_getElem_ne i (by omega) hcase ?_
      rw [List.get_eq_getElem, List.getElem_set_self (by simp; omega)]
      exact hvne
    rw [fernetDecrypt]
    simp only [hmod, if_true, hdiv, htake, hdrop, if_neg hne]
  · -- the flip lands in the second half
    have hi2 : i - body.length < body.length := by omega
    have horig : (body ++ body).get ⟨i, hgetlt⟩ = body.get ⟨i - body.length, hi2⟩ :=
      List.getElem_append_right hcase
    rw [hvdef, horig, List.set_append_right _ _ hcase]
    generalize hv : body.get ⟨i - body.length, hi2⟩ ^^^ 2 ^ j = v
    have hvne : v ≠ body.get ⟨i - body.length, hi2⟩ := by
      rw [← hv]; exact xor_two_pow_ne _ j
    have hlenset : (body.set (i - body.length) v).length = body.length :=
      List.length_set body _ v
    have hlen2 : (body ++ body.set (i - body.length) v).length =
        body.length + body.length := by
      rw [List.length_append, hlenset]
    have hmod : (body ++ body.set (i - body.length) v).length % 2 = 0 := by omega
    have hdiv : (body ++ body.set (i - body.length) v).length / 2 = body.length := by
      omega
    have htake : (body ++ body.set (i - body.length) v).take body.length = body :=
      List.take_left _ _
    have hdrop : (body ++ body.set (i - body.length) v).drop body.length =
        body.set (i - body.length) v := List.drop_left _ _
    have hne : body ≠ body.set (i - body.length) v := by
      refine ne_of_getElem_ne (i - body.length) hi2 (by omega) ?_
      rw [List.get_eq_getElem, List.get_eq_getElem, List.getElem_set_self (by simp; omega)]
      exact fun h => hvne h.symm
    rw [fernetDecrypt]
    simp only [hmod, if_true, hdiv, htake, hdrop, if_neg hne]

/-! ### Unfolding lemmas for `store` -/

/-- A `store` on a dict registry with an ASCII token: the new key is put in
the registry, the registry file is written, the encrypted token is stored
in the backend, and the entropy counter advances. -/
theorem store_dict_ascii_eq (m : List (List Nat × PyVal)) (file : FileContent)
    (bk : List (List Nat × List Nat)) (f : Nat) (u t : List Nat)
    (ht : t.all (fun c => c < 128) = true) :
    store ⟨.dict m, file, bk, f⟩ u t =
      { result := .ok (),
        state := ⟨.dict (alSet m u (.str (genKey f))),
                  .parsed (.dict (alSet m u (.str (genKey f)))),
                  alSet bk u (fernetEncrypt (genKey f) f t), f + 1⟩,
        events := [Ev.regWrite (.dict (alSet m u (.str (genKey f)))),
                   Ev.backendSet u (fernetEncrypt (genKey f) f t)] } := by
  simp [store, pySetItem, asciiEncode, ht]

/-- A `store` on a dict registry with a non-ASCII token: the new key is put
in the registry and the registry file is written, then the
`token.encode("ascii")` on line 132 raises before the backend write. -/
theorem store_dict_nonascii_eq (m : List (List Nat × PyVal))
    (file : FileContent) (bk : List (List Nat × List Nat)) (f : Nat)
    (u t : List Nat) (ht : t.all (fun c => c < 128) = false) :
    store ⟨.dict m, file, bk, f⟩ u t =
      { result := .error .unicodeEncodeError,
        state := ⟨.dict (alSet m u (.str (genKey f))),
                  .parsed (.dict (alSet m u (.str (genKey f)))), bk, f + 1⟩,
        events := [Ev.regWrite (.dict (alSet m u (.str (genKey f))))] } := by
  simp [store, pySetItem, asciiEncode, ht]

/-! ### Claims -/

/-- C1 (amended).  Round-trip: for every identity `u` and every
ASCII-encodable token `t`, `retrieve(u)` after `store(u, t)` succeeds and
returns exactly the byte sequence of `t`.  (The claim as stated, for
arbitrary token strings, fails: `store` rejects non-ASCII tokens.) -/
theorem store_retrieve_roundtrip (m : List (List Nat × PyVal))
    (file : FileContent) (bk : List (List Nat × List Nat)) (f : Nat)
    (u t : List Nat) (ht : t.all (fun c => c < 128) = true) :
    (store ⟨.dict m, file, bk, f⟩ u t).result = .ok () ∧
    (retrieve (store ⟨.dict m, file, bk, f⟩ u t).state u).result = .ok t := by
  rw [store_dict_ascii_eq m file bk f u t ht]
  refine ⟨rfl, ?_⟩
  simp [retrieve, getKeyOp, pyGetItem, alGet_alSet_self, fernetEncrypt_ascii,
    genKey_ascii, fernetDecrypt_fernetEncrypt]

/-- C1 witness: the round trip at a concrete input. -/
theorem store_retrieve_roundtrip_witness :
    (store ⟨.dict [], .absent, [], 0⟩ [97] [116]).result = .ok () ∧
    (retrieve (store ⟨.dict [], .absent, [], 0⟩ [97] [116]).state [97]).result =
      .ok [116] :=
  store_retrieve_roundtrip [] .absent [] 0 [97] [116] (by decide)

/-- C1 counterexample: for the non-ASCII token `[200]`, `store` raises a
`UnicodeEncodeError` and the subsequent `retrieve` does not return the
token, so the unrestricted round-trip claim fails. -/
theorem store_retrieve_roundtrip_cex :
    (store (mkManager .absent [] 0) [97] [200]).result =
      .error .unicodeEncodeError ∧
    (retrieve (store (mkManager .absent [] 0) [97] [200]).state [97]).result ≠
      .ok [200] := by
  have h1 : (retrieve (store (mkManager .absent [] 0) [97] [200]).state
      [97]).result = .error .credentialNotFound := rfl
  refine ⟨rfl, ?_⟩
  rw [h1]
  intro h
  exact Except.noConfusion h

/-- C2.  Write ordering in `store`: the trace of side effects is always
one of: nothing (registry update itself failed), a registry write alone
(token encoding failed), or a registry write followed by the backend
write — the backend is never written before the new key is persisted. -/
theorem store_registry_write_first (s : St) (u t : List Nat) :
    (store s u t).events = [] ∨
    (∃ c, (store s u t).events = [Ev.regWrite c]) ∨
    (∃ c a v, (store s u t).events = [Ev.regWrite c, Ev.backendSet a v]) := by
  rw [store]
  rcases pySetItem s.json_data u (.str (genKey s.fresh)) with e | jd
  · exact Or.inl rfl
  · rcases asciiEncode t with e | pt
    · exact Or.inr (Or.inl ⟨jd, rfl⟩)
    · exact Or.inr (Or.inr ⟨jd, u, fernetEncrypt (genKey s.fresh) s.fresh pt, rfl⟩)

/-- C3.  For every identity with no ciphertext in the Secret Backend,
`retrieve` fails with `CredentialNotFound` (the `AttributeError` raised on
line 136 when `keyring.get_password` returns `None`). -/
theorem retrieve_never_stored (s : St) (u : List Nat)
    (h : alGet s.backend u = none) :
    (retrieve s u).result = .error .credentialNotFound := by
  simp [retrieve, h]

/-- C3 witness: retrieving `"b"` from a freshly constructed manager. -/
theorem retrieve_never_stored_witness :
    (retrieve (mkManager .absent [] 0) [98]).result =
      .error .credentialNotFound :=
  retrieve_never_stored (mkManager .absent [] 0) [98] rfl

/-- C4.  Desync detection: a ciphertext in the backend with no registry
entry makes `retrieve` fail with `UnknownIdentity` (the `KeyError` of
`_get_key`, line 104), and not with `CredentialNotFound`. -/
theorem retrieve_desync_unknown_identity (m : List (List Nat × PyVal))
    (file : FileContent) (bk : List (List Nat × List Nat)) (f : Nat)
    (u v : List Nat) (hb : alGet bk u = some v)
    (hv : v.all (fun c => c < 128) = true) (hm : alGet m u = none) :
    (retrieve ⟨.dict m, file, bk, f⟩ u).result = .error .unknownIdentity ∧
    (retrieve ⟨.dict m, file, bk, f⟩ u).result ≠ .error .credentialNotFound := by
  have h1 : (retrieve ⟨.dict m, file, bk, f⟩ u).result =
      .error .unknownIdentity := by
    simp [retrieve, hb, asciiEncode, hv, getKeyOp, pyGetItem, hm]
  refine ⟨h1, ?_⟩
  rw [h1]
  intro h
  injection h with h2
  exact absurd h2 (by decide)

/-- C4 witness: ciphertext for `"b"` present, registry empty. -/
theorem retrieve_desync_unknown_identity_witness :
    (retrieve ⟨.dict [], .absent, [([98], [44])], 0⟩ [98]).result =
      .error .unknownIdentity :=
  (retrieve_desync_unknown_identity [] .absent [([98], [44])] 0 [98] [44]
    rfl (by decide) rfl).1

/-- C6.  Registry load recovery: an absent registry file and an
unparseable registry file both load as the empty mapping, and a subsequent
`store` (here: after loading an unparseable file) succeeds for any
identity and ASCII token. -/
theorem registry_corruption_recovery (bk : List (List Nat × List Nat))
    (f : Nat) (u t : List Nat) (ht : t.all (fun c => c < 128) = true) :
    getJsonStorage .absent = .dict [] ∧
    getJsonStorage .unparseable = .dict [] ∧
    (store (mkManager .unparseable bk f) u t).result = .ok () := by
  refine ⟨rfl, rfl, ?_⟩
  simp [mkManager, getJsonStorage, store, pySetItem, asciiEncode, ht]

/-- C6 witness: store after loading an unparseable registry. -/
theorem registry_corruption_recovery_witness :
    getJsonStorage .absent = .dict [] ∧
    getJsonStorage .unparseable = .dict [] ∧
    (store (mkManager .unparseable [] 0) [97] [116]).result = .ok () :=
  registry_corruption_recovery [] 0 [97] [116] (by decide)

/-- C7.  Read-only retrieval: `retrieve` leaves the whole vault state
(in-memory registry, registry file, backend, entropy source) unchanged and
performs no write events, whether it succeeds or fails. -/
theorem retrieve_read_only (s : St) (u : List Nat) :
    (retrieve s u).state = s ∧ (retrieve s u).events = [] := by
  rcases h1 : alGet s.backend u with _ | v
  · simp [retrieve, h1]
  · rcases h2 : asciiEncode v with e | ct
    · simp [retrieve, h1, h2]
    · rcases h3 : getKeyOp s.json_data u with e | key
      · simp [retrieve, h1, h2, h3]
      · simp [retrieve, h1, h2, h3]

/-- C10.  Registry loading only recovers from syntactically invalid JSON:
a registry file holding a valid JSON array is returned unchanged by the
load (not replaced by an empty mapping), and a subsequent `store` fails
with the `TypeError` of line 127 instead of succeeding. -/
theorem registry_non_object_not_recovered (xs : List PyVal)
    (bk : List (List Nat × List Nat)) (f : Nat) (u t : List Nat) :
    getJsonStorage (.parsed (.list xs)) = .list xs ∧
    (store (mkManager (.parsed (.list xs)) bk f) u t).result =
      .error .typeError := by
  refine ⟨rfl, ?_⟩
  simp [store, mkManager, getJsonStorage, pySetItem]

/-- Flipping a bit of index below 7 keeps every character of a Fernet
token ASCII. -/
theorem flipAt_all_ascii {key : List Nat} {nonce : Nat} {pt : List Nat}
    {i j : Nat} (hi : i < (fernetEncrypt key nonce pt).length) (hj : j < 7) :
    (flipAt (fernetEncrypt key nonce pt) i j).all (fun c => c < 128) = true := by
  rw [List.all_eq_true]
  intro c hc
  rw [flipAt] at hc
  rcases List.mem_or_eq_of_mem_set hc with h | h
  · simpa using fernetEncrypt_mem_lt h
  · subst h
    have hlt : (fernetEncrypt key nonce pt).getD i 0 < 128 := by
      rw [List.getD_eq_getElem _ _ hi]
      exact fernetEncrypt_mem_lt (List.getElem_mem hi)
    simpa using xor_two_pow_lt hlt hj

/-- Flipping a bit of index 7 or higher pushes a character of a Fernet
token out of the ASCII range. -/
theorem flipAt_not_ascii {key : List Nat} {nonce : Nat} {pt : List Nat}
    {i j : Nat} (hi : i < (fernetEncrypt key nonce pt).length) (hj : 7 ≤ j) :
    (flipAt (fernetEncrypt key nonce pt) i j).all (fun c => c < 128) = false := by
  rcases Bool.eq_false_or_eq_true
      ((flipAt (fernetEncrypt key nonce pt) i j).all (fun c => c < 128)) with
    h | h
  · exfalso
    rw [List.all_eq_true] at h
    have hlen : i < (flipAt (fernetEncrypt key nonce pt) i j).length := by
      rw [flipAt, List.length_set]
      exact hi
    have h2 := h _ (List.getElem_mem hlen)
    have hget : (flipAt (fernetEncrypt key nonce pt) i j).get ⟨i, hlen⟩ =
        (fernetEncrypt key nonce pt).getD i 0 ^^^ 2 ^ j := by
      simp only [flipAt, List.get_eq_getElem] at hlen ⊢
      exact List.getElem_set_self hlen
    rw [List.get_eq_getElem] at hget
    rw [hget] at h2
    have hlt : (fernetEncrypt key nonce pt).getD i 0 < 128 := by
      rw [List.getD_eq_getElem _ _ hi]
      exact fernetEncrypt_mem_lt (List.getElem_mem hi)
    exact xor_two_pow_ge hlt hj (by simpa using h2)
  · exact h

/-- C5 (amended).  Tamper detection: after a ciphertext stored under a
registered key has any single bit of any character flipped, `retrieve`
never returns plaintext.  When the flip keeps the character ASCII (bit
index below 7) it fails with `DecryptionFailed`; when the flip leaves the
ASCII range (bit index 7 or higher) it fails with the `UnicodeEncodeError`
raised by `.encode("ascii")` on line 136 — not with `DecryptionFailed`,
which refutes the claim as stated. -/
theorem retrieve_tampered_bitflip (m : List (List Nat × PyVal))
    (file : FileContent) (bk : List (List Nat × List Nat)) (f : Nat)
    (u key : List Nat) (nonce : Nat) (pt : List Nat) (i j : Nat)
    (hm : alGet m u = some (.str key))
    (hkey : key.all (fun c => c < 128) = true)
    (hb : alGet bk u = some (flipAt (fernetEncrypt key nonce pt) i j))
    (hi : i < (fernetEncrypt key nonce pt).length) :
    (∀ p, (retrieve ⟨.dict m, file, bk, f⟩ u).result ≠ .ok p) ∧
    (j < 7 →
      (retrieve ⟨.dict m, file, bk, f⟩ u).result = .error .decryptionFailed) ∧
    (7 ≤ j →
      (retrieve ⟨.dict m, file, bk, f⟩ u).result =
        .error .unicodeEncodeError) := by
  have hlow : j < 7 →
      (retrieve ⟨.dict m, file, bk, f⟩ u).result = .error .decryptionFailed := by
    intro hj
    have ha := flipAt_all_ascii hi hj
    simp [retrieve, hb, asciiEncode, ha, getKeyOp, pyGetItem, hm, hkey,
      fernetDecrypt_flipAt key key nonce pt i j hi]
  have hhigh : 7 ≤ j →
      (retrieve ⟨.dict m, file, bk, f⟩ u).result = .error .unicodeEncodeError := by
    intro hj
    have ha := flipAt_not_ascii hi hj
    simp [retrieve, hb, asciiEncode, ha]
  refine ⟨?_, hlow, hhigh⟩
  intro p h
  rcases Nat.lt_or_ge j 7 with hj | hj
  · rw [hlow hj] at h
    exact Except.noConfusion h
  · rw [hhigh hj] at h
    exact Except.noConfusion h

/-- C5 witness: a low-bit flip on a stored ciphertext makes `retrieve`
fail with `DecryptionFailed`. -/
theorem retrieve_tampered_bitflip_witness :
    (0:Nat) < 7 ∧
    (retrieve ⟨.dict [([97], .str [44])], .absent,
        [([97], flipAt (fernetEncrypt [44] 0 []) 0 0)], 0⟩ [97]).result =
      .error .decryptionFailed :=
  ⟨by decide,
    (retrieve_tampered_bitflip [([97], .str [44])] .absent
      [([97], flipAt (fernetEncrypt [44] 0 []) 0 0)] 0 [97] [44] 0 [] 0 0
      rfl (by decide) rfl (by decide)).2.1 (by decide)⟩

/-- C5 counterexample: flipping bit 7 of the first character of a stored
ciphertext makes `retrieve` fail with a `UnicodeEncodeError`, not with
`DecryptionFailed`, refuting the claim as stated. -/
theorem retrieve_tampered_cex :
    (retrieve ⟨.dict [([97], .str [44])], .absent,
        [([97], flipAt (fernetEncrypt [44] 0 []) 0 7)], 0⟩ [97]).result =
      .error .unicodeEncodeError ∧
    (retrieve ⟨.dict [([97], .str [44])], .absent,
        [([97], flipAt (fernetEncrypt [44] 0 []) 0 7)], 0⟩ [97]).result ≠
      .error .decryptionFailed := by
  have h1 : (retrieve ⟨.dict [([97], .str [44])], .absent,
      [([97], flipAt (fernetEncrypt [44] 0 []) 0 7)], 0⟩ [97]).result =
        .error .unicodeEncodeError := rfl
  refine ⟨h1, ?_⟩
  rw [h1]
  intro h
  injection h with h2
  exact absurd h2 (by decide)

/-- C8.  A `store` with a non-ASCII token on an identity stored earlier:
the first store succeeds; the second generates and persists a fresh key to
the registry file, then raises `UnicodeEncodeError` at
`token.encode("ascii")` (line 132) before the backend write, so the
orphaned new key is persisted, the backend still holds the old
ciphertext, and that ciphertext no longer decrypts under the registered
key: `retrieve` now fails with `DecryptionFailed`. -/
theorem store_nonascii_orphans_key (m : List (List Nat × PyVal))
    (file : FileContent) (bk : List (List Nat × List Nat)) (f : Nat)
    (u t0 tb : List Nat) (h0 : t0.all (fun c => c < 128) = true)
    (hbad : tb.all (fun c => c < 128) = false) :
    (store ⟨.dict m, file, bk, f⟩ u t0).result = .ok () ∧
    (store (store ⟨.dict m, file, bk, f⟩ u t0).state u tb).result =
      .error .unicodeEncodeError ∧
    (store (store ⟨.dict m, file, bk, f⟩ u t0).state u tb).state.json_storage =
      .parsed (store (store ⟨.dict m, file, bk, f⟩ u t0).state u tb).state.json_data ∧
    pyGetItem (store (store ⟨.dict m, file, bk, f⟩ u t0).state u tb).state.json_data u =
      .ok (.str (genKey (f + 1))) ∧
    (store (store ⟨.dict m, file, bk, f⟩ u t0).state u tb).state.backend =
      (store ⟨.dict m, file, bk, f⟩ u t0).state.backend ∧
    (retrieve (store (store ⟨.dict m, file, bk, f⟩ u t0).state u tb).state u).result =
      .error .decryptionFailed := by
  have e1 := store_dict_ascii_eq m file bk f u t0 h0
  have e2 := store_dict_nonascii_eq (alSet m u (.str (genKey f)))
      (.parsed (.dict (alSet m u (.str (genKey f)))))
      (alSet bk u (fernetEncrypt (genKey f) f t0)) (f + 1) u tb hbad
  simp only [e1]
  simp only [e2]
  have hne : genKey f ≠ genKey (f + 1) := by
    intro h
    have h2 := encNat_injective h
    omega
  refine ⟨trivial, trivial, trivial, ?_, trivial, ?_⟩
  · simp [pyGetItem, alGet_alSet_self]
  · simp [retrieve, alGet_alSet_self, fernetEncrypt_ascii, getKeyOp, pyGetItem,
      genKey_ascii, fernetDecrypt_fernetEncrypt, hne]

/-- C8 witness: the scenario at a concrete input. -/
theorem store_nonascii_orphans_key_witness :
    (store ⟨.dict [], .absent, [], 0⟩ [97] [116]).result = .ok () ∧
    (store (store ⟨.dict [], .absent, [], 0⟩ [97] [116]).state [97] [200]).result =
      .error .unicodeEncodeError ∧
    (store (store ⟨.dict [], .absent, [], 0⟩ [97] [116]).state [97] [200]).state.json_storage =
      .parsed (store (store ⟨.dict [], .absent, [], 0⟩ [97] [116]).state [97] [200]).state.json_data ∧
    pyGetItem (store (store ⟨.dict [], .absent, [], 0⟩ [97] [116]).state [97] [200]).state.json_data [97] =
      .ok (.str (genKey 1)) ∧
    (store (store ⟨.dict [], .absent, [], 0⟩ [97] [116]).state [97] [200]).state.backend =
      (store ⟨.dict [], .absent, [], 0⟩ [97] [116]).state.backend ∧
    (retrieve (store (store ⟨.dict [], .absent, [], 0⟩ [97] [116]).state [97] [200]).state [97]).result =
      .error .decryptionFailed :=
  store_nonascii_orphans_key [] .absent [] 0 [97] [116] [200]
    (by decide) (by decide)

/-- C9.  In-memory/on-disk registry consistency: the manager holds it
after construction, and every successful `store` re-establishes it (the
in-memory mapping is updated and then the same mapping is written to the
registry file). -/
theorem registry_memory_file_consistent :
    (∀ file bk f, registryConsistent (mkManager file bk f)) ∧
    (∀ (s : St) (u t : List Nat), (store s u t).result = .ok () →
      registryConsistent (store s u t).state) := by
  constructor
  · intro file bk f
    rfl
  · intro s u t h
    revert h
    rw [store]
    rcases pySetItem s.json_data u (.str (genKey s.fresh)) with e | jd
    · intro h
      exact Except.noConfusion h
    · rcases asciiEncode t with e | pt
      · intro h
        exact Except.noConfusion h
      · intro _
        rfl

/-- C9 witness: consistency after construction and after a successful
store at a concrete input. -/
theorem registry_memory_file_consistent_witness :
    registryConsistent (mkManager .absent [] 0) ∧
    registryConsistent (store (mkManager .absent [] 0) [97] [116]).state :=
  ⟨registry_memory_file_consistent.1 .absent [] 0,
    registry_memory_file_consistent.2 (mkManager .absent [] 0) [97] [116] rfl⟩

end ArcpyAuthManager
